import Mathlib

/-
Verification of the DoublePendulum integrator core
(src/include/DoublePendulum.hpp, src/src/DoublePendulum.cpp).

Modelling conventions:
* C++ double arithmetic is idealised as exact rational arithmetic (ℚ).
  Division by zero in ℚ is total and returns 0.
* The math-library functions sin and cos are abstract parameters
  (sin cos : ℚ → ℚ): every theorem quantifying over them holds in
  particular for the actual trigonometric functions.
* M_PI is the exact rational value of the C literal 3.14159265358979323846.
* File input for loadConfig is modelled as Option (List (List Char)):
  none models a file that failed to open, some lines models the list of
  lines read from an open file.  std::stod is an abstract parameter.
  An uninitialised double field is modelled as the value none.
-/

namespace DoublePendulum

/-- The Config struct of DoublePendulum.hpp: all eleven double fields. -/
structure Config where
  L1 : ℚ
  L2 : ℚ
  M1 : ℚ
  M2 : ℚ
  G : ℚ
  theta1 : ℚ
  theta2 : ℚ
  omega1 : ℚ
  omega2 : ℚ
  dt : ℚ
  totalTime : ℚ

/-- The private state of class DoublePendulum: current angles, current
angular velocities, and the previous-step history fields. -/
@[ext]
structure PState where
  theta1 : ℚ
  theta2 : ℚ
  omega1 : ℚ
  omega2 : ℚ
  theta1_old : ℚ
  theta2_old : ℚ
  omega1_old : ℚ
  omega2_old : ℚ

/-- The value of the C constant M_PI (literal 3.14159265358979323846),
as an exact rational. -/
def M_PI : ℚ := 314159265358979323846 / 10 ^ 20

/-- First loop of normalizeAngle: while (angle > M_PI) angle -= 2 * M_PI. -/
def subLoop (angle : ℚ) : ℚ :=
  if h : angle > M_PI then subLoop (angle - 2 * M_PI) else angle
termination_by (⌈(angle - M_PI) / (2 * M_PI)⌉).toNat
decreasing_by
  have h2 : (0:ℚ) < 2 * M_PI := by norm_num [M_PI]
  have key : (angle - 2 * M_PI - M_PI) / (2 * M_PI)
      = (angle - M_PI) / (2 * M_PI) - 1 := by
    rw [div_sub_one (ne_of_gt h2)]
    ring_nf
  have hpos : (0:ℚ) < (angle - M_PI) / (2 * M_PI) := div_pos (by linarith) h2
  have hc : 0 < ⌈(angle - M_PI) / (2 * M_PI)⌉ := Int.ceil_pos.mpr hpos
  rw [key, Int.ceil_sub_one]
  omega

/-- Second loop of normalizeAngle: while (angle < -M_PI) angle += 2 * M_PI. -/
def addLoop (angle : ℚ) : ℚ :=
  if h : angle < -M_PI then addLoop (angle + 2 * M_PI) else angle
termination_by (⌈(-M_PI - angle) / (2 * M_PI)⌉).toNat
decreasing_by
  have h2 : (0:ℚ) < 2 * M_PI := by norm_num [M_PI]
  have key : (-M_PI - (angle + 2 * M_PI)) / (2 * M_PI)
      = (-M_PI - angle) / (2 * M_PI) - 1 := by
    rw [div_sub_one (ne_of_gt h2)]
    ring_nf
  have hpos : (0:ℚ) < (-M_PI - angle) / (2 * M_PI) := div_pos (by linarith) h2
  have hc : 0 < ⌈(-M_PI - angle) / (2 * M_PI)⌉ := Int.ceil_pos.mpr hpos
  rw [key, Int.ceil_sub_one]
  omega

/-- DoublePendulum::normalizeAngle: both while loops in sequence. -/
def normalizeAngle (angle : ℚ) : ℚ := addLoop (subLoop angle)

/-- The constructor DoublePendulum::DoublePendulum(const Config&):
normalizes the initial angles, copies the velocities, and initialises the
history fields equal to the (normalized) current values. -/
def mkPendulum (cfg : Config) : PState :=
  { theta1 := normalizeAngle cfg.theta1
    theta2 := normalizeAngle cfg.theta2
    omega1 := cfg.omega1
    omega2 := cfg.omega2
    theta1_old := normalizeAngle cfg.theta1
    theta2_old := normalizeAngle cfg.theta2
    omega1_old := cfg.omega1
    omega2_old := cfg.omega2 }

/-- The constant MIN_DENOM = 1e-10 of calculateAcceleration. -/
def MIN_DENOM : ℚ := 1 / 10 ^ 10

/-- The constant MAX_ACCEL = 1000.0 of calculateAcceleration. -/
def MAX_ACCEL : ℚ := 1000

/-- Local delta_theta = theta2 - theta1 of calculateAcceleration. -/
def delta_theta (s : PState) : ℚ := s.theta2 - s.theta1

/-- Local denom1 = (M1 + M2) * L1 - M2 * L1 * cos_delta * cos_delta. -/
def denom1 (cos : ℚ → ℚ) (cfg : Config) (s : PState) : ℚ :=
  (cfg.M1 + cfg.M2) * cfg.L1
    - cfg.M2 * cfg.L1 * cos (delta_theta s) * cos (delta_theta s)

/-- Local denom2 = (L2 / L1) * denom1. -/
def denom2 (cos : ℚ → ℚ) (cfg : Config) (s : PState) : ℚ :=
  (cfg.L2 / cfg.L1) * denom1 cos cfg s

/-- The denominator stability safeguard of calculateAcceleration:
if (std::abs(denom) < MIN_DENOM) denom = (denom >= 0) ? MIN_DENOM : -MIN_DENOM. -/
def clampDenom (d : ℚ) : ℚ :=
  if |d| < MIN_DENOM then (if 0 ≤ d then MIN_DENOM else -MIN_DENOM) else d

/-- The alpha1 expression of calculateAcceleration, after the denominator
safeguard and before the final acceleration clamp. -/
def alpha1Raw (sin cos : ℚ → ℚ) (cfg : Config) (s : PState) : ℚ :=
  (-cfg.M2 * cfg.L1 * s.omega1 * s.omega1 * sin (delta_theta s) * cos (delta_theta s)
      + cfg.M2 * cfg.G * sin s.theta2 * cos (delta_theta s)
      + cfg.M2 * cfg.L2 * s.omega2 * s.omega2 * sin (delta_theta s)
      - (cfg.M1 + cfg.M2) * cfg.G * sin s.theta1)
    / clampDenom (denom1 cos cfg s)

/-- The alpha2 expression of calculateAcceleration, after the denominator
safeguard and before the final acceleration clamp. -/
def alpha2Raw (sin cos : ℚ → ℚ) (cfg : Config) (s : PState) : ℚ :=
  (-cfg.M2 * cfg.L2 * s.omega2 * s.omega2 * sin (delta_theta s) * cos (delta_theta s)
      + (cfg.M1 + cfg.M2) * cfg.G * sin s.theta1 * cos (delta_theta s)
      + (cfg.M1 + cfg.M2) * cfg.L1 * s.omega1 * s.omega1 * sin (delta_theta s)
      - (cfg.M1 + cfg.M2) * cfg.G * sin s.theta2)
    / clampDenom (denom2 cos cfg s)

/-- The final acceleration clamp:
alpha = std::max(-MAX_ACCEL, std::min(MAX_ACCEL, alpha)). -/
def clampAccel (x : ℚ) : ℚ := max (-MAX_ACCEL) (min MAX_ACCEL x)

/-- DoublePendulum::calculateAcceleration(double&, double&): returns the
pair (alpha1, alpha2) written through the two reference parameters.  It
reads the state and writes nothing but its two outputs. -/
def calculateAcceleration (sin cos : ℚ → ℚ) (cfg : Config) (s : PState) : ℚ × ℚ :=
  (clampAccel (alpha1Raw sin cos cfg s), clampAccel (alpha2Raw sin cos cfg s))

/-- Local theta1_new of verletStep:
2 * theta1 - theta1_old + alpha1 * dt * dt. -/
def theta1_new (sin cos : ℚ → ℚ) (cfg : Config) (s : PState) : ℚ :=
  2 * s.theta1 - s.theta1_old
    + (calculateAcceleration sin cos cfg s).1 * cfg.dt * cfg.dt

/-- Local theta2_new of verletStep:
2 * theta2 - theta2_old + alpha2 * dt * dt. -/
def theta2_new (sin cos : ℚ → ℚ) (cfg : Config) (s : PState) : ℚ :=
  2 * s.theta2 - s.theta2_old
    + (calculateAcceleration sin cos cfg s).2 * cfg.dt * cfg.dt

/-- DoublePendulum::verletStep(): one position-Verlet advance.  The
central-difference velocities use the pre-step history, the history is
then shifted to the pre-step current angles, and the new current angles
are normalized.  The omega_old fields are not touched by this function. -/
def verletStep (sin cos : ℚ → ℚ) (cfg : Config) (s : PState) : PState :=
  { theta1 := normalizeAngle (theta1_new sin cos cfg s)
    theta2 := normalizeAngle (theta2_new sin cos cfg s)
    omega1 := (theta1_new sin cos cfg s - s.theta1_old) / (2 * cfg.dt)
    omega2 := (theta2_new sin cos cfg s - s.theta2_old) / (2 * cfg.dt)
    theta1_old := s.theta1
    theta2_old := s.theta2
    omega1_old := s.omega1_old
    omega2_old := s.omega2_old }

/-- The i = 0 branch of the driver loops in simulateAndOutputData and
simulateAndOutputAllData: synthesize the history by a second-order Euler
expansion theta_old = theta - omega * dt + 0.5 * alpha * dt * dt, with
alpha from calculateAcceleration at the current (initial) state. -/
def bootstrapStep (sin cos : ℚ → ℚ) (cfg : Config) (s : PState) : PState :=
  { s with
    theta1_old := s.theta1 - s.omega1 * cfg.dt
      + 0.5 * (calculateAcceleration sin cos cfg s).1 * cfg.dt * cfg.dt
    theta2_old := s.theta2 - s.omega2 * cfg.dt
      + 0.5 * (calculateAcceleration sin cos cfg s).2 * cfg.dt * cfg.dt }

/-- The state after n iterations of the driver loop
for (int i = 0; i < steps; i++) { if (i > 0) verletStep(); else Euler-bootstrap; }
shared verbatim by simulateAndOutputData and simulateAndOutputAllData. -/
def runSim (sin cos : ℚ → ℚ) (cfg : Config) (s0 : PState) : ℕ → PState
  | 0 => s0
  | k + 1 =>
    if 0 < k then verletStep sin cos cfg (runSim sin cos cfg s0 k)
    else bootstrapStep sin cos cfg (runSim sin cos cfg s0 k)

/-- static_cast<int> on a double value: truncation toward zero. -/
def truncTowardZero (q : ℚ) : ℤ := if 0 ≤ q then ⌊q⌋ else ⌈q⌉

/-- int steps = static_cast<int>(config.totalTime / config.dt); the loop
runs for the indices 0 ≤ i < steps (none when steps ≤ 0). -/
def numSteps (cfg : Config) : ℕ := (truncTowardZero (cfg.totalTime / cfg.dt)).toNat

/-- The sampling skeleton of both driver loops: iteration i emits one
record (carrying the running time t) when i % 100 == 0, and then advances
t += dt.  The second argument counts the remaining iterations. -/
def loopSamples (dt : ℚ) : ℕ → ℕ → ℚ → List (ℕ × ℚ)
  | _, 0, _ => []
  | i, r + 1, t =>
    (if i % 100 = 0 then [(i, t)] else []) ++ loopSamples dt (i + 1) r (t + dt)

/-- The full sample sequence (step index, emission time) of one simulation
run: t starts at 0.0 and the loop runs for numSteps iterations. -/
def outputSamples (cfg : Config) : List (ℕ × ℚ) :=
  loopSamples cfg.dt 0 (numSteps cfg) 0

/-- The acceleration formulas exactly as section 4.1 of the spec states
them, clamps excluded: alpha1 with denominator
(M1+M2)*L1 - M2*L1*cos(delta)^2.  Written from the spec text, to be
compared against calculateAcceleration. -/
def specAlpha1 (sin cos : ℚ → ℚ) (cfg : Config) (s : PState) : ℚ :=
  (-cfg.M2 * cfg.L1 * s.omega1 ^ 2 * sin (s.theta2 - s.theta1) * cos (s.theta2 - s.theta1)
      + cfg.M2 * cfg.G * sin s.theta2 * cos (s.theta2 - s.theta1)
      + cfg.M2 * cfg.L2 * s.omega2 ^ 2 * sin (s.theta2 - s.theta1)
      - (cfg.M1 + cfg.M2) * cfg.G * sin s.theta1)
    / ((cfg.M1 + cfg.M2) * cfg.L1 - cfg.M2 * cfg.L1 * cos (s.theta2 - s.theta1) ^ 2)

/-- The spec formula for alpha2, with denominator (L2/L1) times the
denominator of alpha1.  Written from the spec text. -/
def specAlpha2 (sin cos : ℚ → ℚ) (cfg : Config) (s : PState) : ℚ :=
  (-cfg.M2 * cfg.L2 * s.omega2 ^ 2 * sin (s.theta2 - s.theta1) * cos (s.theta2 - s.theta1)
      + (cfg.M1 + cfg.M2) * cfg.G * sin s.theta1 * cos (s.theta2 - s.theta1)
      + (cfg.M1 + cfg.M2) * cfg.L1 * s.omega1 ^ 2 * sin (s.theta2 - s.theta1)
      - (cfg.M1 + cfg.M2) * cfg.G * sin s.theta2)
    / ((cfg.L2 / cfg.L1)
        * ((cfg.M1 + cfg.M2) * cfg.L1 - cfg.M2 * cfg.L1 * cos (s.theta2 - s.theta1) ^ 2))

/-- Keys recognised by DoublePendulum::loadConfig, one per Config field. -/
inductive CfgKey
  | L1 | L2 | M1 | M2 | G | THETA1 | THETA2 | OMEGA1 | OMEGA2 | DT | TOTAL_TIME
deriving DecidableEq

/-- The key string each Config field is matched against in loadConfig. -/
def CfgKey.str : CfgKey → List Char
  | .L1 => "L1".toList
  | .L2 => "L2".toList
  | .M1 => "M1".toList
  | .M2 => "M2".toList
  | .G => "G".toList
  | .THETA1 => "THETA1".toList
  | .THETA2 => "THETA2".toList
  | .OMEGA1 => "OMEGA1".toList
  | .OMEGA2 => "OMEGA2".toList
  | .DT => "DT".toList
  | .TOTAL_TIME => "TOTAL_TIME".toList

/-- The default Config record loadConfig builds when the file fails to
open: L1=L2=1, M1=M2=1, G=9.81, theta1=1.5, theta2=1.0, omega1=omega2=0,
dt=0.01, totalTime=20. -/
def defaultVal : CfgKey → ℚ
  | .L1 => 1
  | .L2 => 1
  | .M1 => 1
  | .M2 => 1
  | .G => 9.81
  | .THETA1 => 1.5
  | .THETA2 => 1.0
  | .OMEGA1 => 0
  | .OMEGA2 => 0
  | .DT => 0.01
  | .TOTAL_TIME => 20.0

/-- Whitespace trimmed by loadConfig: the characters of " \t". -/
def isWS (c : Char) : Bool := c == ' ' || c == '\t'

/-- erase leading and trailing " \t", as the two erase calls in loadConfig. -/
def trimKV (s : List Char) : List Char :=
  ((s.dropWhile isWS).reverse.dropWhile isWS).reverse

/-- line.find('='): split a line at the first '=': the part before it and
the part after it; none when the line has no '='. -/
def splitEq : List Char → Option (List Char × List Char)
  | [] => none
  | c :: cs =>
    if c = '=' then some ([], cs)
    else (splitEq cs).map fun p => (c :: p.1, p.2)

/-- One line of the loadConfig read loop, up to the stod call: skip empty
lines and lines whose first character is '#', skip lines without '=',
strip the inline comment from the value, trim key and value. -/
def parseLine : List Char → Option (List Char × List Char)
  | [] => none
  | c :: cs =>
    if c = '#' then none
    else
      match splitEq (c :: cs) with
      | none => none
      | some (k, v) => some (trimKV k, trimKV (v.takeWhile fun ch => ch != '#'))

/-- The if/else-if assignment chain of loadConfig, acting on a record of
optional field values (none = still uninitialised). -/
def processLine (stod : List Char → ℚ) (cfg : CfgKey → Option ℚ)
    (line : List Char) : CfgKey → Option ℚ :=
  match parseLine line with
  | none => cfg
  | some (k, v) => fun key => if k = CfgKey.str key then some (stod v) else cfg key

/-- DoublePendulum::loadConfig: on an unopened file (none) the builtin
default record; on an open file, the read loop folded over its lines,
starting from the record with every field uninitialised. -/
def loadConfig (stod : List Char → ℚ) :
    Option (List (List Char)) → CfgKey → Option ℚ
  | none => fun k => some (defaultVal k)
  | some lines => lines.foldl (processLine stod) fun _ => none

/-- Abstract sin instance used for concrete evaluations: identically 0. -/
def sinZ : ℚ → ℚ := fun _ => 0

/-- Abstract cos instance used for concrete evaluations: identically 1. -/
def cosZ : ℚ → ℚ := fun _ => 1

/-- Abstract sin instance with value 1 (the value of sin at pi/2). -/
def sinOne : ℚ → ℚ := fun _ => 1

/-- Abstract cos instance with value 0 (the value of cos at pi/2). -/
def cosZero : ℚ → ℚ := fun _ => 0

/-- Concrete configuration for evaluations: unit lengths and masses,
zero gravity, dt = 1. -/
def cfgB : Config :=
  { L1 := 1, L2 := 1, M1 := 1, M2 := 1, G := 0, theta1 := 0, theta2 := 0,
    omega1 := 0, omega2 := 0, dt := 1, totalTime := 0 }

/-- Concrete state for evaluations: theta1 = 3 with history -3, at rest. -/
def sB : PState :=
  { theta1 := 3, theta2 := 0, omega1 := 0, omega2 := 0,
    theta1_old := -3, theta2_old := 0, omega1_old := 0, omega2_old := 0 }

/-- Concrete state with a large omega2, used to engage the acceleration
clamp. -/
def sFast : PState :=
  { theta1 := 0, theta2 := 0, omega1 := 0, omega2 := 100,
    theta1_old := 0, theta2_old := 0, omega1_old := 0, omega2_old := 100 }

/-- Concrete configuration with the degenerate length L1 = 0. -/
def cfgL0 : Config :=
  { L1 := 0, L2 := 1, M1 := 1, M2 := 1, G := 9.81, theta1 := 0, theta2 := 0,
    omega1 := 0, omega2 := 0, dt := 0.01, totalTime := 20 }

/-- Concrete configuration for the sampling-cadence instance:
totalTime = 10, dt = 0.01, hence steps = 1000. -/
def cfgW : Config :=
  { L1 := 1, L2 := 1, M1 := 1, M2 := 1, G := 9.81, theta1 := 1.5, theta2 := 1,
    omega1 := 0, omega2 := 0, dt := 0.01, totalTime := 10 }

/-- Abstract stod instance for concrete evaluations: identically 0. -/
def stodZ : List Char → ℚ := fun _ => 0

/-- Concrete config-file content for evaluations: a comment line and an
assignment to L1 only. -/
def linesW : List (List Char) := ["# config".toList, "L1 = 2.5".toList]

theorem M_PI_pos : (0:ℚ) < M_PI := by norm_num [M_PI]

theorem subLoop_spec (angle : ℚ) :
    subLoop angle ≤ M_PI ∧ ∃ n : ℕ, subLoop angle = angle - 2 * M_PI * n := by
  rw [subLoop]
  split
  case isTrue h =>
    obtain ⟨hle, n, hn⟩ := subLoop_spec (angle - 2 * M_PI)
    refine ⟨hle, n + 1, ?_⟩
    rw [hn]
    push_cast
    ring
  case isFalse h =>
    exact ⟨le_of_not_lt h, 0, by norm_num⟩
termination_by (⌈(angle - M_PI) / (2 * M_PI)⌉).toNat
decreasing_by
  have h2 : (0:ℚ) < 2 * M_PI := by norm_num [M_PI]
  have key : (angle - 2 * M_PI - M_PI) / (2 * M_PI)
      = (angle - M_PI) / (2 * M_PI) - 1 := by
    rw [div_sub_one (ne_of_gt h2)]
    ring_nf
  have hpos : (0:ℚ) < (angle - M_PI) / (2 * M_PI) := div_pos (by linarith) h2
  have hc : 0 < ⌈(angle - M_PI) / (2 * M_PI)⌉ := Int.ceil_pos.mpr hpos
  rw [key, Int.ceil_sub_one]
  omega

theorem addLoop_spec (angle : ℚ) :
    -M_PI ≤ addLoop angle ∧ (angle ≤ M_PI → addLoop angle ≤ M_PI)
      ∧ ∃ n : ℕ, addLoop angle = angle + 2 * M_PI * n := by
  rw [addLoop]
  split
  case isTrue h =>
    obtain ⟨hge, hle, n, hn⟩ := addLoop_spec (angle + 2 * M_PI)
    refine ⟨hge, fun _ => hle ?_, n + 1, ?_⟩
    · have := M_PI_pos
      linarith
    · rw [hn]
      push_cast
      ring
  case isFalse h =>
    exact ⟨le_of_not_lt h, fun hle => hle, 0, by norm_num⟩
termination_by (⌈(-M_PI - angle) / (2 * M_PI)⌉).toNat
decreasing_by
  have h2 : (0:ℚ) < 2 * M_PI := by norm_num [M_PI]
  have key : (-M_PI - (angle + 2 * M_PI)) / (2 * M_PI)
      = (-M_PI - angle) / (2 * M_PI) - 1 := by
    rw [div_sub_one (ne_of_gt h2)]
    ring_nf
  have hpos : (0:ℚ) < (-M_PI - angle) / (2 * M_PI) := div_pos (by linarith) h2
  have hc : 0 < ⌈(-M_PI - angle) / (2 * M_PI)⌉ := Int.ceil_pos.mpr hpos
  rw [key, Int.ceil_sub_one]
  omega

theorem normalizeAngle_ge (angle : ℚ) : -M_PI ≤ normalizeAngle angle :=
  (addLoop_spec (subLoop angle)).1

theorem normalizeAngle_le (angle : ℚ) : normalizeAngle angle ≤ M_PI :=
  (addLoop_spec (subLoop angle)).2.1 (subLoop_spec angle).1

theorem normalizeAngle_shift (angle : ℚ) :
    ∃ k : ℤ, normalizeAngle angle = angle - 2 * M_PI * k := by
  obtain ⟨-, n, hn⟩ := subLoop_spec angle
  obtain ⟨-, -, m, hm⟩ := addLoop_spec (subLoop angle)
  refine ⟨(n : ℤ) - m, ?_⟩
  unfold normalizeAngle
  rw [hm, hn]
  push_cast
  ring

theorem clampAccel_mem (x : ℚ) : -1000 ≤ clampAccel x ∧ clampAccel x ≤ 1000 := by
  unfold clampAccel MAX_ACCEL
  constructor
  · exact le_max_left _ _
  · exact max_le (by norm_num) (min_le_left _ _)

theorem accel_bounds (sin cos : ℚ → ℚ) (cfg : Config) (s : PState) :
    -1000 ≤ (calculateAcceleration sin cos cfg s).1
      ∧ (calculateAcceleration sin cos cfg s).1 ≤ 1000
      ∧ -1000 ≤ (calculateAcceleration sin cos cfg s).2
      ∧ (calculateAcceleration sin cos cfg s).2 ≤ 1000 := by
  unfold calculateAcceleration
  exact ⟨(clampAccel_mem _).1, (clampAccel_mem _).2,
    (clampAccel_mem _).1, (clampAccel_mem _).2⟩

theorem clampDenom_id {d : ℚ} (h : MIN_DENOM ≤ |d|) : clampDenom d = d := by
  unfold clampDenom
  rw [if_neg (not_lt.mpr h)]

theorem clampAccel_id {x : ℚ} (h : |x| ≤ MAX_ACCEL) : clampAccel x = x := by
  unfold clampAccel
  obtain ⟨h1, h2⟩ := abs_le.mp h
  rw [min_eq_right h2, max_eq_right h1]

theorem loopSamples_closed (dt : ℚ) :
    ∀ (r i : ℕ) (t : ℚ), t = (i : ℚ) * dt →
      loopSamples dt i r t
        = ((List.range' i r).filter fun m => decide (m % 100 = 0)).map
            fun m : ℕ => (m, (m : ℚ) * dt) := by
  intro r
  induction r with
  | zero => intro i t _; rfl
  | succ r ih =>
    intro i t ht
    have hr : List.range' i (r + 1) = i :: List.range' (i + 1) r :=
      List.range'_succ i r 1
    have hnext : t + dt = ((i + 1 : ℕ) : ℚ) * dt := by
      rw [ht]
      push_cast
      ring
    rw [hr]
    by_cases h0 : i % 100 = 0
    · simp only [loopSamples, if_pos h0, List.filter_cons, decide_eq_true_eq,
        h0, if_pos, List.map_cons, List.singleton_append]
      rw [ih (i + 1) (t + dt) hnext, ht]
    · simp only [loopSamples, if_neg h0, List.filter_cons, decide_eq_true_eq,
        h0, if_neg, List.nil_append]
      exact ih (i + 1) (t + dt) hnext

theorem outputSamples_closed (cfg : Config) :
    outputSamples cfg
      = ((List.range (numSteps cfg)).filter fun m => decide (m % 100 = 0)).map
          fun m : ℕ => (m, (m : ℚ) * cfg.dt) := by
  unfold outputSamples
  rw [loopSamples_closed cfg.dt (numSteps cfg) 0 0 (by norm_num),
    ← List.range_eq_range']

theorem foldl_processLine_none (stod : List Char → ℚ) (k : CfgKey) :
    ∀ (lines : List (List Char)) (acc : CfgKey → Option ℚ),
      (∀ l ∈ lines, (parseLine l).map Prod.fst ≠ some (CfgKey.str k)) →
      List.foldl (processLine stod) acc lines k = acc k := by
  intro lines
  induction lines with
  | nil => intro acc _; rfl
  | cons l ls ih =>
    intro acc h
    rw [List.foldl_cons, ih _ fun m hm => h m (List.mem_cons_of_mem l hm)]
    unfold processLine
    rcases hp : parseLine l with - | kv
    · rfl
    · have hk : kv.1 ≠ CfgKey.str k := by
        have := h l (List.mem_cons_self l ls)
        rw [hp] at this
        simpa using this
      simp only [if_neg hk]

/-- C2: for every Config with dt ≠ 0 and every state, one verletStep call
computes alpha1, alpha2 from the pre-step state, sets
theta_i_new = 2 theta_i - theta_i_old + alpha_i dt^2, sets omega_i to the
central difference (theta_i_new - theta_i_old) / (2 dt), shifts
theta_i_old to the pre-step theta_i, sets theta_i to
normalize(theta_i_new), and performs no other state mutation. -/
theorem C2_verlet_step (sin cos : ℚ → ℚ) (cfg : Config) (hdt : cfg.dt ≠ 0)
    (s : PState) :
    verletStep sin cos cfg s =
      { theta1 := normalizeAngle (2 * s.theta1 - s.theta1_old
          + (calculateAcceleration sin cos cfg s).1 * cfg.dt ^ 2)
        theta2 := normalizeAngle (2 * s.theta2 - s.theta2_old
          + (calculateAcceleration sin cos cfg s).2 * cfg.dt ^ 2)
        omega1 := (2 * s.theta1 - s.theta1_old
          + (calculateAcceleration sin cos cfg s).1 * cfg.dt ^ 2 - s.theta1_old)
            / (2 * cfg.dt)
        omega2 := (2 * s.theta2 - s.theta2_old
          + (calculateAcceleration sin cos cfg s).2 * cfg.dt ^ 2 - s.theta2_old)
            / (2 * cfg.dt)
        theta1_old := s.theta1
        theta2_old := s.theta2
        omega1_old := s.omega1_old
        omega2_old := s.omega2_old } := by
  have h1 : (calculateAcceleration sin cos cfg s).1 * cfg.dt ^ 2
      = (calculateAcceleration sin cos cfg s).1 * cfg.dt * cfg.dt := by ring
  have h2 : (calculateAcceleration sin cos cfg s).2 * cfg.dt ^ 2
      = (calculateAcceleration sin cos cfg s).2 * cfg.dt * cfg.dt := by ring
  rw [h1, h2]
  rfl

/-- Closed instance of C2_verlet_step at a concrete configuration with
dt = 1 ≠ 0: the history field saved by the step is the pre-step angle. -/
theorem C2_witness :
    cfgB.dt ≠ 0 ∧ (verletStep sinZ cosZ cfgB sB).theta1_old = sB.theta1 := by
  have hdt : cfgB.dt ≠ 0 := by norm_num [cfgB]
  exact ⟨hdt, by rw [C2_verlet_step sinZ cosZ cfgB hdt sB]⟩

/-- C3: in the shared driver loop, iteration 0 performs no Verlet advance
but synthesizes the history by the Euler expansion
theta_old = theta - omega dt + 0.5 alpha dt^2 with alpha at the initial
state, every iteration at index at least 1 calls verletStep, and when
omega_i = 0 the synthesized history is theta_i + 0.5 alpha_i dt^2. -/
theorem C3_bootstrap (sin cos : ℚ → ℚ) (cfg : Config) (s0 : PState) :
    runSim sin cos cfg s0 1 = bootstrapStep sin cos cfg s0
    ∧ (∀ k : ℕ, 1 ≤ k →
        runSim sin cos cfg s0 (k + 1)
          = verletStep sin cos cfg (runSim sin cos cfg s0 k))
    ∧ (bootstrapStep sin cos cfg s0).theta1_old
        = s0.theta1 - s0.omega1 * cfg.dt
          + 0.5 * (calculateAcceleration sin cos cfg s0).1 * cfg.dt ^ 2
    ∧ (bootstrapStep sin cos cfg s0).theta2_old
        = s0.theta2 - s0.omega2 * cfg.dt
          + 0.5 * (calculateAcceleration sin cos cfg s0).2 * cfg.dt ^ 2
    ∧ (s0.omega1 = 0 → (bootstrapStep sin cos cfg s0).theta1_old
        = s0.theta1 + 0.5 * (calculateAcceleration sin cos cfg s0).1 * cfg.dt ^ 2)
    ∧ (s0.omega2 = 0 → (bootstrapStep sin cos cfg s0).theta2_old
        = s0.theta2 + 0.5 * (calculateAcceleration sin cos cfg s0).2 * cfg.dt ^ 2) := by
  refine ⟨rfl, fun k hk => ?_, ?_, ?_, fun h => ?_, fun h => ?_⟩
  · simp only [runSim, if_pos (Nat.lt_of_lt_of_le Nat.zero_lt_one hk)]
  · simp only [bootstrapStep]
    ring
  · simp only [bootstrapStep]
    ring
  · simp only [bootstrapStep, h]
    ring
  · simp only [bootstrapStep, h]
    ring

/-- Closed instance of C3_bootstrap: at a concrete config and initial
state at rest, iteration 1 is a verletStep on the bootstrapped state and
the synthesized history is theta1 + 0.5 alpha1 dt^2. -/
theorem C3_witness :
    runSim sinZ cosZ cfgB sB 2 = verletStep sinZ cosZ cfgB (runSim sinZ cosZ cfgB sB 1)
    ∧ sB.omega1 = 0
    ∧ (bootstrapStep sinZ cosZ cfgB sB).theta1_old
        = sB.theta1 + 0.5 * (calculateAcceleration sinZ cosZ cfgB sB).1 * cfgB.dt ^ 2 :=
  ⟨(C3_bootstrap sinZ cosZ cfgB sB).2.1 1 le_rfl, rfl,
    (C3_bootstrap sinZ cosZ cfgB sB).2.2.2.2.1 rfl⟩

/-- C4: for every Config (all rationals are finite), the current angles
theta1 and theta2 lie in [-M_PI, M_PI] after construction, after every
verletStep call on any state, and in every state reached by the driver
loop from a constructed pendulum. -/
theorem C4_angles_normalized (sin cos : ℚ → ℚ) (cfg : Config) :
    (-M_PI ≤ (mkPendulum cfg).theta1 ∧ (mkPendulum cfg).theta1 ≤ M_PI
      ∧ -M_PI ≤ (mkPendulum cfg).theta2 ∧ (mkPendulum cfg).theta2 ≤ M_PI)
    ∧ (∀ s : PState,
        -M_PI ≤ (verletStep sin cos cfg s).theta1
        ∧ (verletStep sin cos cfg s).theta1 ≤ M_PI
        ∧ -M_PI ≤ (verletStep sin cos cfg s).theta2
        ∧ (verletStep sin cos cfg s).theta2 ≤ M_PI)
    ∧ ∀ n : ℕ,
        -M_PI ≤ (runSim sin cos cfg (mkPendulum cfg) n).theta1
        ∧ (runSim sin cos cfg (mkPendulum cfg) n).theta1 ≤ M_PI
        ∧ -M_PI ≤ (runSim sin cos cfg (mkPendulum cfg) n).theta2
        ∧ (runSim sin cos cfg (mkPendulum cfg) n).theta2 ≤ M_PI := by
  refine ⟨⟨normalizeAngle_ge _, normalizeAngle_le _, normalizeAngle_ge _,
      normalizeAngle_le _⟩,
    fun s => ⟨normalizeAngle_ge _, normalizeAngle_le _, normalizeAngle_ge _,
      normalizeAngle_le _⟩, ?_⟩
  intro n
  induction n with
  | zero =>
    exact ⟨normalizeAngle_ge _, normalizeAngle_le _, normalizeAngle_ge _,
      normalizeAngle_le _⟩
  | succ k ih =>
    by_cases hk : 0 < k
    · simp only [runSim, if_pos hk]
      exact ⟨normalizeAngle_ge _, normalizeAngle_le _, normalizeAngle_ge _,
        normalizeAngle_le _⟩
    · simp only [runSim, if_neg hk]
      exact ih

/-- C5 as amended: the history saved by a verletStep is the pre-step
current angle, which is the normalization of the previous step's
theta_i_new, not the raw theta_i_new itself. -/
theorem C5_history_normalized (sin cos : ℚ → ℚ) (cfg : Config) (s : PState) :
    (verletStep sin cos cfg s).theta1_old = s.theta1
    ∧ (verletStep sin cos cfg s).theta2_old = s.theta2
    ∧ (verletStep sin cos cfg (verletStep sin cos cfg s)).theta1_old
        = normalizeAngle (theta1_new sin cos cfg s)
    ∧ (verletStep sin cos cfg (verletStep sin cos cfg s)).theta2_old
        = normalizeAngle (theta2_new sin cos cfg s) :=
  ⟨rfl, rfl, rfl, rfl⟩

/-- C5 counterexample: at a concrete state whose first Verlet update
leaves [-M_PI, M_PI] (theta1_new = 9), the value saved into theta1_old by
the following step is the normalized angle, not the pre-normalization
theta1_new the claim asserts. -/
theorem C5_counterexample :
    (verletStep sinZ cosZ cfgB (verletStep sinZ cosZ cfgB sB)).theta1_old
      ≠ theta1_new sinZ cosZ cfgB sB := by
  have h1 : (verletStep sinZ cosZ cfgB (verletStep sinZ cosZ cfgB sB)).theta1_old
      = normalizeAngle (theta1_new sinZ cosZ cfgB sB) := rfl
  have h2 : theta1_new sinZ cosZ cfgB sB = 9 := by
    norm_num [theta1_new, calculateAcceleration, alpha1Raw, clampAccel,
      clampDenom, denom1, delta_theta, MIN_DENOM, MAX_ACCEL, sinZ, cosZ, cfgB, sB]
  rw [h1, h2]
  intro hcon
  have hle := normalizeAngle_le 9
  rw [hcon] at hle
  have hlt : M_PI < 9 := by norm_num [M_PI]
  linarith

/-- C9: normalizeAngle terminates on every (finite) rational input: its
value is reached from the input by finitely many shifts of 2 M_PI (an
integer number of them) and lies in [-M_PI, M_PI].  All core operations
of the embedding (mkPendulum, calculateAcceleration, verletStep) are
total functions. -/
theorem C9_normalize_total : ∀ angle : ℚ,
    (∃ k : ℤ, normalizeAngle angle = angle - 2 * M_PI * k)
    ∧ -M_PI ≤ normalizeAngle angle ∧ normalizeAngle angle ≤ M_PI :=
  fun angle =>
    ⟨normalizeAngle_shift angle, normalizeAngle_ge angle, normalizeAngle_le angle⟩

/-- C1 as amended: calculateAcceleration returns exactly the Lagrangian
formulas of the spec whenever neither stability clamp engages, i.e. both
denominators have magnitude at least 1e-10 and both formula values have
magnitude at most 1000.  (The embedding is a pure function: no state
field is mutated.) -/
theorem C1_accel_formula (sin cos : ℚ → ℚ) (cfg : Config) (s : PState)
    (h1 : MIN_DENOM ≤ |denom1 cos cfg s|)
    (h2 : MIN_DENOM ≤ |denom2 cos cfg s|)
    (ha1 : |specAlpha1 sin cos cfg s| ≤ MAX_ACCEL)
    (ha2 : |specAlpha2 sin cos cfg s| ≤ MAX_ACCEL) :
    calculateAcceleration sin cos cfg s
      = (specAlpha1 sin cos cfg s, specAlpha2 sin cos cfg s) := by
  have hd1 : denom1 cos cfg s
      = (cfg.M1 + cfg.M2) * cfg.L1
        - cfg.M2 * cfg.L1 * cos (s.theta2 - s.theta1) ^ 2 := by
    unfold denom1 delta_theta
    ring
  have hd2 : denom2 cos cfg s
      = (cfg.L2 / cfg.L1)
        * ((cfg.M1 + cfg.M2) * cfg.L1
            - cfg.M2 * cfg.L1 * cos (s.theta2 - s.theta1) ^ 2) := by
    unfold denom2
    rw [hd1]
  have e1 : alpha1Raw sin cos cfg s = specAlpha1 sin cos cfg s := by
    unfold alpha1Raw specAlpha1
    rw [clampDenom_id h1, hd1]
    congr 1
    unfold delta_theta
    ring
  have e2 : alpha2Raw sin cos cfg s = specAlpha2 sin cos cfg s := by
    unfold alpha2Raw specAlpha2
    rw [clampDenom_id h2, hd2]
    congr 1
    unfold delta_theta
    ring
  unfold calculateAcceleration
  rw [e1, e2, clampAccel_id ha1, clampAccel_id ha2]

/-- C1 counterexample: at a concrete state with omega2 = 100 the
acceleration clamp engages (the formula value of alpha1 is 5000), so
calculateAcceleration does not return the spec formulas for every state,
contrary to the claim as stated. -/
theorem C1_counterexample :
    calculateAcceleration sinOne cosZero cfgB sFast
      ≠ (specAlpha1 sinOne cosZero cfgB sFast,
          specAlpha2 sinOne cosZero cfgB sFast) := by
  have h1 : (calculateAcceleration sinOne cosZero cfgB sFast).1 = 1000 := by
    norm_num [calculateAcceleration, alpha1Raw, clampAccel, clampDenom, denom1,
      delta_theta, MIN_DENOM, MAX_ACCEL, sinOne, cosZero, cfgB, sFast]
  have h2 : specAlpha1 sinOne cosZero cfgB sFast = 5000 := by
    norm_num [specAlpha1, sinOne, cosZero, cfgB, sFast]
  intro hcon
  have h3 : (1000 : ℚ) = 5000 := by
    rw [← h1, ← h2]
    exact congrArg Prod.fst hcon
  norm_num at h3

/-- Closed instance of C1_accel_formula at a concrete configuration where
no clamp engages. -/
theorem C1_witness :
    MIN_DENOM ≤ |denom1 cosZ cfgB sB| ∧ MIN_DENOM ≤ |denom2 cosZ cfgB sB|
    ∧ |specAlpha1 sinZ cosZ cfgB sB| ≤ MAX_ACCEL
    ∧ |specAlpha2 sinZ cosZ cfgB sB| ≤ MAX_ACCEL
    ∧ calculateAcceleration sinZ cosZ cfgB sB
        = (specAlpha1 sinZ cosZ cfgB sB, specAlpha2 sinZ cosZ cfgB sB) := by
  have hd1 : denom1 cosZ cfgB sB = 1 := by
    norm_num [denom1, delta_theta, cosZ, cfgB, sB]
  have hd2 : denom2 cosZ cfgB sB = 1 := by
    unfold denom2
    rw [hd1]
    norm_num [cfgB]
  have hs1 : specAlpha1 sinZ cosZ cfgB sB = 0 := by
    norm_num [specAlpha1, sinZ, cosZ, cfgB, sB]
  have hs2 : specAlpha2 sinZ cosZ cfgB sB = 0 := by
    norm_num [specAlpha2, sinZ, cosZ, cfgB, sB]
  have h1 : MIN_DENOM ≤ |denom1 cosZ cfgB sB| := by
    rw [hd1]
    norm_num [MIN_DENOM]
  have h2 : MIN_DENOM ≤ |denom2 cosZ cfgB sB| := by
    rw [hd2]
    norm_num [MIN_DENOM]
  have ha1 : |specAlpha1 sinZ cosZ cfgB sB| ≤ MAX_ACCEL := by
    rw [hs1]
    norm_num [MAX_ACCEL]
  have ha2 : |specAlpha2 sinZ cosZ cfgB sB| ≤ MAX_ACCEL := by
    rw [hs2]
    norm_num [MAX_ACCEL]
  exact ⟨h1, h2, ha1, ha2, C1_accel_formula sinZ cosZ cfgB sB h1 h2 ha1 ha2⟩

/-- C6: the denominator safeguard replaces any denominator of magnitude
below 1e-10 by one of magnitude exactly 1e-10 with its sign preserved
(zero treated as positive), and the returned accelerations always lie in
[-1000, 1000]. -/
theorem C6_clamps (sin cos : ℚ → ℚ) (cfg : Config) (s : PState) :
    (∀ d : ℚ, |d| < MIN_DENOM →
        clampDenom d = (if 0 ≤ d then MIN_DENOM else -MIN_DENOM)
        ∧ |clampDenom d| = MIN_DENOM)
    ∧ -1000 ≤ (calculateAcceleration sin cos cfg s).1
    ∧ (calculateAcceleration sin cos cfg s).1 ≤ 1000
    ∧ -1000 ≤ (calculateAcceleration sin cos cfg s).2
    ∧ (calculateAcceleration sin cos cfg s).2 ≤ 1000 := by
  refine ⟨fun d hd => ⟨?_, ?_⟩, accel_bounds sin cos cfg s⟩
  · unfold clampDenom
    rw [if_pos hd]
  · unfold clampDenom
    rw [if_pos hd]
    split
    · norm_num [MIN_DENOM]
    · norm_num [MIN_DENOM]

/-- Closed instance of C6_clamps: the zero denominator is clamped to
+1e-10, and a concrete acceleration is within bounds. -/
theorem C6_witness :
    |(0:ℚ)| < MIN_DENOM
    ∧ clampDenom 0 = (if (0:ℚ) ≤ 0 then MIN_DENOM else -MIN_DENOM)
    ∧ |clampDenom 0| = MIN_DENOM
    ∧ -1000 ≤ (calculateAcceleration sinZ cosZ cfgB sB).1 := by
  have h0 : |(0:ℚ)| < MIN_DENOM := by norm_num [MIN_DENOM]
  obtain ⟨hA, hB⟩ := (C6_clamps sinZ cosZ cfgB sB).1 0 h0
  exact ⟨h0, hA, hB, (C6_clamps sinZ cosZ cfgB sB).2.1⟩

/-- C7: with the degenerate length L1 = 0 both denominators are clamped
to the positive floor 1e-10 (so no division by zero occurs) and both
returned accelerations stay within [-1000, 1000]. -/
theorem C7_degenerate_L1 (sin cos : ℚ → ℚ) (cfg : Config) (s : PState)
    (hL1 : cfg.L1 = 0) :
    clampDenom (denom1 cos cfg s) = MIN_DENOM
    ∧ clampDenom (denom2 cos cfg s) = MIN_DENOM
    ∧ -1000 ≤ (calculateAcceleration sin cos cfg s).1
    ∧ (calculateAcceleration sin cos cfg s).1 ≤ 1000
    ∧ -1000 ≤ (calculateAcceleration sin cos cfg s).2
    ∧ (calculateAcceleration sin cos cfg s).2 ≤ 1000 := by
  have hd1 : denom1 cos cfg s = 0 := by
    unfold denom1
    rw [hL1]
    ring
  have hd2 : denom2 cos cfg s = 0 := by
    unfold denom2
    rw [hd1]
    ring
  have hc : clampDenom 0 = MIN_DENOM := by norm_num [clampDenom, MIN_DENOM]
  exact ⟨by rw [hd1]; exact hc, by rw [hd2]; exact hc, accel_bounds sin cos cfg s⟩

/-- Closed instance of C7_degenerate_L1 at the concrete configuration
cfgL0 with L1 = 0. -/
theorem C7_witness :
    cfgL0.L1 = 0
    ∧ clampDenom (denom2 cosZ cfgL0 sB) = MIN_DENOM
    ∧ (calculateAcceleration sinZ cosZ cfgL0 sB).2 ≤ 1000 :=
  ⟨rfl, (C7_degenerate_L1 sinZ cosZ cfgL0 sB rfl).2.1,
    (C7_degenerate_L1 sinZ cosZ cfgL0 sB rfl).2.2.2.2.2⟩

set_option maxRecDepth 10000 in
/-- C8: with steps = totalTime/dt truncated toward zero, a simulation run
emits exactly one sample per index i with i % 100 = 0 and i < steps, in
index order, carrying time t = i dt; the times are non-decreasing, and
for totalTime = 10, dt = 0.01 (steps = 1000) the emitted times are
exactly 0, 1, ..., 9. -/
theorem C8_sampling (cfg : Config) (hdt : 0 < cfg.dt) :
    outputSamples cfg
      = ((List.range (numSteps cfg)).filter fun m => decide (m % 100 = 0)).map
          (fun m : ℕ => (m, (m : ℚ) * cfg.dt))
    ∧ List.Chain' (fun a b : ℕ × ℚ => a.2 ≤ b.2) (outputSamples cfg)
    ∧ (cfg.totalTime = 10 ∧ cfg.dt = 0.01 →
        numSteps cfg = 1000
        ∧ (outputSamples cfg).map Prod.snd = [0, 1, 2, 3, 4, 5, 6, 7, 8, 9]) := by
  refine ⟨outputSamples_closed cfg, ?_, fun hcc => ?_⟩
  · rw [outputSamples_closed cfg]
    refine List.Pairwise.chain' ?_
    rw [List.pairwise_map]
    refine List.Pairwise.imp ?_ ((List.sorted_lt_range (numSteps cfg)).filter _)
    intro a b hab
    exact mul_le_mul_of_nonneg_right (by exact_mod_cast hab.le) hdt.le
  · obtain ⟨h1, h2⟩ := hcc
    have hdiv : (10 : ℚ) / 0.01 = 1000 := by norm_num
    have hfl : ⌊(1000 : ℚ)⌋ = 1000 := by
      rw [show (1000 : ℚ) = ((1000 : ℤ) : ℚ) by norm_num]
      exact Int.floor_intCast 1000
    have hsteps : numSteps cfg = 1000 := by
      unfold numSteps truncTowardZero
      rw [h1, h2, hdiv, if_pos (by norm_num : (0:ℚ) ≤ 1000), hfl]
      rfl
    have hfil : ((List.range 1000).filter fun m => decide (m % 100 = 0))
        = [0, 100, 200, 300, 400, 500, 600, 700, 800, 900] := by decide
    refine ⟨hsteps, ?_⟩
    rw [outputSamples_closed cfg, hsteps, h2, hfil]
    norm_num

/-- Closed instance of C8_sampling at the concrete configuration cfgW
(totalTime = 10, dt = 0.01): exactly the ten sample times 0 to 9. -/
theorem C8_witness :
    (0:ℚ) < cfgW.dt
    ∧ numSteps cfgW = 1000
    ∧ (outputSamples cfgW).map Prod.snd = [0, 1, 2, 3, 4, 5, 6, 7, 8, 9] := by
  have hdt : (0:ℚ) < cfgW.dt := by norm_num [cfgW]
  have h := (C8_sampling cfgW hdt).2.2 ⟨rfl, rfl⟩
  exact ⟨hdt, h.1, h.2⟩

/-- C10: loadConfig returns the builtin default record exactly when the
file fails to open; on an open file every field starts uninitialised and
is assigned only by a line whose parsed key matches its key string, so a
field whose key occurs on no line comes back uninitialised (none). -/
theorem C10_loadConfig (stod : List Char → ℚ) :
    (∀ k, loadConfig stod none k = some (defaultVal k))
    ∧ ∀ (lines : List (List Char)) (k : CfgKey),
        (∀ l ∈ lines, (parseLine l).map Prod.fst ≠ some (CfgKey.str k)) →
        loadConfig stod (some lines) k = none :=
  ⟨fun _ => rfl, fun lines k h => foldl_processLine_none stod k lines _ h⟩

/-- Closed instance of C10_loadConfig: a file with only a comment line and
an L1 assignment leaves the DT field uninitialised, while an unopened
file yields the default L1. -/
theorem C10_witness :
    loadConfig stodZ none CfgKey.L1 = some (defaultVal CfgKey.L1)
    ∧ (∀ l ∈ linesW, (parseLine l).map Prod.fst ≠ some (CfgKey.str CfgKey.DT))
    ∧ loadConfig stodZ (some linesW) CfgKey.DT = none := by
  have h : ∀ l ∈ linesW, (parseLine l).map Prod.fst ≠ some (CfgKey.str CfgKey.DT) := by
    decide
  exact ⟨(C10_loadConfig stodZ).1 CfgKey.L1, h,
    (C10_loadConfig stodZ).2 linesW CfgKey.DT h⟩

end DoublePendulum
